import Mathlib

/-!
Shallow embedding of `src/cimpng.py` (CipherNerd/cimtoolkit), the CIM
container codec: three pixel-format converters, the decode path `read_cim`
and the encode path `write_cim`.

Modelling conventions:
* Byte strings are `List Nat` (each element a byte value; Python's `bytes`
  guarantees elements in 0..255, which the theorems assume where needed).
* The zlib compression envelope is a lossless inverse pair provided by an
  external library, so both codec directions are modelled on the
  decompressed stream content: `write_cim` produces the bytes that the
  Python code hands to `zlib.compress`, and `read_cim` consumes the bytes
  that `zlib.decompress` returns.
* A Python `IndexError` from reading past the end of a byte string is
  modelled as `none` from the converter; `read_cim`'s enclosing
  `try/except Exception` turns it into the generic `imageError` outcome.
* `read_cim` in the Python source ends by building a PIL image and saving
  it; PIL is the external image-I/O collaborator, so the embedded decode
  stops at the canonical (width, height, RGBA bytes) triple that the code
  passes to `Image.frombytes`.
-/

namespace Cimtoolkit

/-- Embeds `convert_rgb565_to_rgba` (src/cimpng.py lines 7-18).
The loop reads `data[i]` and `data[i+1]` for `i = 0, 2, 4, ...`; on an
odd-length input the final `data[i+1]` raises `IndexError`, modelled as
`none`. -/
def convert_rgb565_to_rgba : List Nat → Option (List Nat)
  | [] => some []
  | [_] => none
  | hi :: lo :: rest => do
    let val := (hi <<< 8) ||| lo
    let r0 := (val >>> 11) &&& 0x1F
    let g0 := (val >>> 5) &&& 0x3F
    let b0 := val &&& 0x1F
    let r := (r0 <<< 3) ||| (r0 >>> 2)
    let g := (g0 <<< 2) ||| (g0 >>> 4)
    let b := (b0 <<< 3) ||| (b0 >>> 2)
    let tail ← convert_rgb565_to_rgba rest
    pure ([r, g, b, 255] ++ tail)

/-- Embeds `convert_grayscale_to_rgba` (src/cimpng.py lines 20-21). -/
def convert_grayscale_to_rgba (data : List Nat) : List Nat :=
  data.flatMap (fun v => [v, v, v, 255])

/-- Embeds `convert_rgb888_to_rgba` (src/cimpng.py lines 23-28).
The loop reads `data[i]`, `data[i+1]`, `data[i+2]` for `i = 0, 3, 6, ...`;
when the length is not a multiple of 3 the tail access raises
`IndexError`, modelled as `none`. -/
def convert_rgb888_to_rgba : List Nat → Option (List Nat)
  | [] => some []
  | [_] => none
  | [_, _] => none
  | r :: g :: b :: rest => do
    let tail ← convert_rgb888_to_rgba rest
    pure ([r, g, b, 255] ++ tail)

/-- Embeds the dict lookup `bpp_map.get(fmt, 4)` with
`bpp_map = {0:4, 1:3, 2:2, 3:1}` (src/cimpng.py lines 59-60). -/
def bpp_map (fmt : Nat) : Nat :=
  if fmt = 0 then 4
  else if fmt = 1 then 3
  else if fmt = 2 then 2
  else if fmt = 3 then 1
  else 4

/-- Outcomes of the decode path that do not produce an image: the
header-length guard (line 51-53), the `else` branch for an unsupported
format selector (lines 77-79), and the generic `except Exception` handler
(lines 84-85) that catches, among others, the converters' `IndexError`. -/
inductive DecodeError where
  | truncatedHeader
  | unsupportedFormat
  | imageError
deriving DecidableEq, Repr

/-- Canonical decoded image: dimensions plus RGBA bytes, the triple the
code passes to `Image.frombytes("RGBA", (width, height), ...)`. -/
structure CanonicalImage where
  width : Nat
  height : Nat
  pixels : List Nat
deriving DecidableEq, Repr

/-- Big-endian 32-bit read at byte offset `off`, embedding one field of
`struct.unpack(">III", data[:12])` (src/cimpng.py line 55). Callers guard
`12 ≤ data.length`, so the `getD` default is never consulted. -/
def beU32 (data : List Nat) (off : Nat) : Nat :=
  data.getD off 0 * 16777216 + data.getD (off + 1) 0 * 65536 +
    data.getD (off + 2) 0 * 256 + data.getD (off + 3) 0

/-- Embeds the repair step (src/cimpng.py lines 62-66): when the payload
is shorter than `width * height * bpp`, the height is recomputed by floor
division and the payload truncated; otherwise both pass through
unchanged. In Python a divisor `width * bpp = 0` would raise
`ZeroDivisionError`, but that branch is unreachable (see
`repair_divisor_pos`), so total `Nat` division is a faithful model. -/
def repairHeightPixels (width height bpp : Nat) (pixels : List Nat) :
    Nat × List Nat :=
  if pixels.length < width * height * bpp then
    let height2 := pixels.length / (width * bpp)
    (height2, pixels.take (width * height2 * bpp))
  else
    (height, pixels)

/-- Header parsing plus repair (src/cimpng.py lines 51-66): the state
`(width, height, pixels)` at the moment the format dispatch (and hence
unpacking) is attempted, or `none` when the decompressed stream is
shorter than the 12-byte header. The parsed `file_fmt` field (bytes 8-11)
is bound and then ignored, exactly as in the source (line 58 comment:
"Ignore file_fmt, use fmt passed from batch prompt"). -/
def decodeStages (data : List Nat) (fmt : Nat) :
    Option (Nat × Nat × List Nat) :=
  if data.length < 12 then none
  else
    let width := beU32 data 0
    let height := beU32 data 4
    let _file_fmt := beU32 data 8
    let pixels := data.drop 12
    let bpp := bpp_map fmt
    let hp := repairHeightPixels width height bpp pixels
    some (width, hp.1, hp.2)

/-- Embeds the format dispatch (src/cimpng.py lines 69-79): RGBA8888 is
the identity, the other three formats go through their converter, and any
other selector hits the `else` branch. A converter's `IndexError`
(modelled `none`) is caught by the enclosing `except Exception`. -/
def unpack (fmt : Nat) (pixels : List Nat) : Except DecodeError (List Nat) :=
  if fmt = 0 then .ok pixels
  else if fmt = 1 then
    match convert_rgb888_to_rgba pixels with
    | some out => .ok out
    | none => .error .imageError
  else if fmt = 2 then
    match convert_rgb565_to_rgba pixels with
    | some out => .ok out
    | none => .error .imageError
  else if fmt = 3 then .ok (convert_grayscale_to_rgba pixels)
  else .error .unsupportedFormat

/-- Embeds `read_cim` (src/cimpng.py lines 42-85) on the decompressed
stream: header guard, header parse, repair, unpack, yielding the
canonical image handed to the external image-I/O collaborator. -/
def read_cim (data : List Nat) (fmt : Nat) :
    Except DecodeError CanonicalImage :=
  match decodeStages data fmt with
  | none => .error .truncatedHeader
  | some (width, height, pixels) =>
    match unpack fmt pixels with
    | .error e => .error e
    | .ok rgba => .ok ⟨width, height, rgba⟩

/-- Big-endian 32-bit serialization of one `struct.pack(">III", ...)`
field (src/cimpng.py line 97), defined for values below `2^32`. -/
def packBE32 (n : Nat) : List Nat :=
  [n / 16777216 % 256, n / 65536 % 256, n / 256 % 256, n % 256]

/-- Embeds `write_cim` (src/cimpng.py lines 87-99) up to the
`zlib.compress` call: the 12-byte header `(width, height, 0)` followed by
the raw RGBA bytes. `struct.pack(">III", ...)` raises `struct.error` for
a value outside the unsigned 32-bit range, modelled as `none`. -/
def write_cim (img : CanonicalImage) : Option (List Nat) :=
  if img.width < 4294967296 ∧ img.height < 4294967296 then
    some (packBE32 img.width ++ packBE32 img.height ++ packBE32 0 ++ img.pixels)
  else
    none

/-- Bit-replication expansion of a 5-bit channel value to 8 bits, as the
spec words it: left-shift by 3 into the high bits, OR the value
right-shifted by 2 to fill the low bits. -/
def replicate5to8 (v : Nat) : Nat := (v <<< 3) ||| (v >>> 2)

/-- Bit-replication expansion of a 6-bit channel value to 8 bits: shift 2,
OR shift-right 4. -/
def replicate6to8 (v : Nat) : Nat := (v <<< 2) ||| (v >>> 4)

/-! ## Supporting lemmas -/

/-- The repair division `len(pixels) // (width * bpp)` is reached only
when the payload is strictly shorter than `width * height * bpp`, and in
that case the divisor is positive, so Python never raises
`ZeroDivisionError` on src/cimpng.py line 65. -/
lemma repair_divisor_pos (width height bpp l : Nat)
    (hl : l < width * height * bpp) : 0 < width * bpp := by
  rcases Nat.eq_zero_or_pos (width * bpp) with h0 | h1
  · exfalso
    have hz : width * height * bpp = 0 := by
      rcases Nat.mul_eq_zero.mp h0 with h' | h' <;> simp [h']
    omega
  · exact h1

/-- Evaluation of `decodeStages` once the 12 header bytes are explicit. -/
lemma decodeStages_cons (b0 b1 b2 b3 b4 b5 b6 b7 b8 b9 b10 b11 : Nat)
    (p : List Nat) (fmt : Nat) :
    decodeStages
        (b0 :: b1 :: b2 :: b3 :: b4 :: b5 :: b6 :: b7 ::
          b8 :: b9 :: b10 :: b11 :: p) fmt =
      some (b0 * 16777216 + b1 * 65536 + b2 * 256 + b3,
        repairHeightPixels (b0 * 16777216 + b1 * 65536 + b2 * 256 + b3)
          (b4 * 16777216 + b5 * 65536 + b6 * 256 + b7) (bpp_map fmt) p) := by
  unfold decodeStages
  rw [if_neg (by simp only [List.length_cons]; omega)]
  rfl

/-- Evaluation of `decodeStages` on a stream long enough to hold the
header. -/
lemma decodeStages_eq (data : List Nat) (fmt : Nat)
    (h12 : ¬ data.length < 12) :
    decodeStages data fmt =
      some (beU32 data 0,
        repairHeightPixels (beU32 data 0) (beU32 data 4) (bpp_map fmt)
          (data.drop 12)) := by
  unfold decodeStages
  rw [if_neg h12]

/-- Every selector has positive bytes-per-pixel (the dict default is 4). -/
lemma bpp_map_pos (fmt : Nat) : 0 < bpp_map fmt := by
  rcases fmt with _ | _ | _ | _ | n <;> simp [bpp_map]

/-- The RGB888 converter succeeds on every input whose length is a
multiple of 3. -/
lemma convert_rgb888_total (l : List Nat) (h : l.length % 3 = 0) :
    (convert_rgb888_to_rgba l).isSome := by
  induction l using convert_rgb888_to_rgba.induct with
  | case1 => rfl
  | case2 x => simp at h
  | case3 x y => simp at h
  | case4 r g b rest ih =>
    have hrest : rest.length % 3 = 0 := by
      simp only [List.length_cons] at h
      omega
    obtain ⟨o, ho⟩ := Option.isSome_iff_exists.mp (ih hrest)
    simp [convert_rgb888_to_rgba, ho]

/-- The RGB565 converter succeeds on every input whose length is even. -/
lemma convert_rgb565_total (l : List Nat) (h : l.length % 2 = 0) :
    (convert_rgb565_to_rgba l).isSome := by
  induction l using convert_rgb565_to_rgba.induct with
  | case1 => rfl
  | case2 x => simp at h
  | case3 hi lo rest ih =>
    have hrest : rest.length % 2 = 0 := by
      simp only [List.length_cons] at h
      omega
    obtain ⟨o, ho⟩ := Option.isSome_iff_exists.mp (ih hrest)
    simp [convert_rgb565_to_rgba, ho]

/-- For a supported selector, unpacking succeeds on every payload whose
length is a multiple of the selector's bytes-per-pixel. -/
lemma unpack_ok_of_dvd (fmt : Nat) (px : List Nat) (hfmt : fmt < 4)
    (hdvd : px.length % bpp_map fmt = 0) :
    ∃ o, unpack fmt px = Except.ok o := by
  interval_cases fmt
  · exact ⟨px, rfl⟩
  · obtain ⟨o, ho⟩ := Option.isSome_iff_exists.mp
      (convert_rgb888_total px (by simpa [bpp_map] using hdvd))
    exact ⟨o, by simp [unpack, ho]⟩
  · obtain ⟨o, ho⟩ := Option.isSome_iff_exists.mp
      (convert_rgb565_total px (by simpa [bpp_map] using hdvd))
    exact ⟨o, by simp [unpack, ho]⟩
  · exact ⟨convert_grayscale_to_rgba px, rfl⟩

/-- Recombining the high byte shifted left by 8 with a low byte below 256
gives the big-endian word value. -/
lemma shiftLeft8_lor (hi lo : Nat) (hlo : lo < 256) :
    (hi <<< 8) ||| lo = 256 * hi + lo := by
  have hlo' : lo < 2 ^ 8 := hlo
  have h := Nat.mul_add_lt_is_or hlo' hi
  have h2 : hi <<< 8 = 2 ^ 8 * hi := by
    rw [Nat.shiftLeft_eq, Nat.mul_comm]
  rw [h2, ← h]

/-- Indexing with a default stays in the first block of a double append
when the index is within it. -/
lemma getD_append2 (pre t r : List Nat) (n : Nat) (h : n < pre.length) :
    ((pre ++ t) ++ r).getD n 0 = pre.getD n 0 := by
  rw [List.getD_append _ _ _ _ (by simp only [List.length_append]; omega),
    List.getD_append _ _ _ _ h]

/-- A big-endian field read that lies entirely inside the first 8 bytes
does not depend on the bytes from offset 8 on. -/
lemma beU32_append_tag (pre t r : List Nat) (hpre : pre.length = 8)
    (off : Nat) (hoff : off + 3 < 8) :
    beU32 ((pre ++ t) ++ r) off = beU32 pre off := by
  unfold beU32
  rw [getD_append2 pre t r off (by omega),
    getD_append2 pre t r (off + 1) (by omega),
    getD_append2 pre t r (off + 2) (by omega),
    getD_append2 pre t r (off + 3) (by omega)]

/-- In a list shaped as one RGBA pixel followed by a tail whose alpha
positions are all 255, every alpha position is 255. -/
lemma alpha_chunk (a b c : Nat) (tail : List Nat)
    (htail : ∀ k, 4 * k + 3 < tail.length → tail.getD (4 * k + 3) 0 = 255) :
    ∀ k, 4 * k + 3 < (a :: b :: c :: 255 :: tail).length →
      (a :: b :: c :: 255 :: tail).getD (4 * k + 3) 0 = 255 := by
  intro k hk
  cases k with
  | zero => rfl
  | succ k' =>
    have he : 4 * (k' + 1) + 3 = 4 * k' + 3 + 1 + 1 + 1 + 1 := by ring
    rw [he, List.getD_cons_succ, List.getD_cons_succ, List.getD_cons_succ,
      List.getD_cons_succ]
    apply htail
    simp only [List.length_cons] at hk
    omega

/-- Every alpha position in the grayscale converter's output is 255. -/
lemma gray_alpha (l : List Nat) :
    ∀ k, 4 * k + 3 < (convert_grayscale_to_rgba l).length →
      (convert_grayscale_to_rgba l).getD (4 * k + 3) 0 = 255 := by
  induction l with
  | nil =>
    intro k hk
    simp [convert_grayscale_to_rgba] at hk
  | cons v rest ih =>
    have hcons : convert_grayscale_to_rgba (v :: rest) =
        v :: v :: v :: 255 :: convert_grayscale_to_rgba rest := rfl
    rw [hcons]
    exact alpha_chunk v v v (convert_grayscale_to_rgba rest) ih

/-- Every alpha position in the RGB888 converter's output is 255. -/
lemma rgb888_alpha (l : List Nat) :
    ∀ o, convert_rgb888_to_rgba l = some o →
      ∀ k, 4 * k + 3 < o.length → o.getD (4 * k + 3) 0 = 255 := by
  induction l using convert_rgb888_to_rgba.induct with
  | case1 =>
    intro o ho
    have : ([] : List Nat) = o := by
      simpa [convert_rgb888_to_rgba] using ho
    intro k hk
    rw [← this] at hk
    simp at hk
  | case2 x =>
    intro o ho
    simp [convert_rgb888_to_rgba] at ho
  | case3 x y =>
    intro o ho
    simp [convert_rgb888_to_rgba] at ho
  | case4 r g b rest ih =>
    intro o ho
    cases hrest : convert_rgb888_to_rgba rest with
    | none => simp [convert_rgb888_to_rgba, hrest] at ho
    | some tail =>
      have ho2 : (r :: g :: b :: 255 :: tail : List Nat) = o := by
        simpa [convert_rgb888_to_rgba, hrest] using ho
      rw [← ho2]
      exact alpha_chunk r g b tail (ih tail hrest)

/-- Every alpha position in the RGB565 converter's output is 255. -/
lemma rgb565_alpha (l : List Nat) :
    ∀ o, convert_rgb565_to_rgba l = some o →
      ∀ k, 4 * k + 3 < o.length → o.getD (4 * k + 3) 0 = 255 := by
  induction l using convert_rgb565_to_rgba.induct with
  | case1 =>
    intro o ho
    have : ([] : List Nat) = o := by
      simpa [convert_rgb565_to_rgba] using ho
    intro k hk
    rw [← this] at hk
    simp at hk
  | case2 x =>
    intro o ho
    simp [convert_rgb565_to_rgba] at ho
  | case3 hi lo rest ih =>
    intro o ho
    cases hrest : convert_rgb565_to_rgba rest with
    | none => simp [convert_rgb565_to_rgba, hrest] at ho
    | some tail =>
      have ho2 : ((((hi <<< 8 ||| lo) >>> 11 &&& 31) <<< 3 |||
            ((hi <<< 8 ||| lo) >>> 11 &&& 31) >>> 2) ::
          ((((hi <<< 8 ||| lo) >>> 5 &&& 63) <<< 2 |||
            ((hi <<< 8 ||| lo) >>> 5 &&& 63) >>> 4)) ::
          ((((hi <<< 8 ||| lo) &&& 31) <<< 3 |||
            ((hi <<< 8 ||| lo) &&& 31) >>> 2)) :: 255 :: tail : List Nat) =
            o := by
        simpa [convert_rgb565_to_rgba, hrest] using ho
      rw [← ho2]
      exact alpha_chunk _ _ _ tail (ih tail hrest)

/-! ## Claims -/

/-- C1: Round-trip identity. For every width `w > 0`, height `h > 0`
(unsigned 32-bit header fields) and RGBA byte buffer `p` of length
`w * h * 4`, encoding the canonical image and decoding the result with
selected format RGBA8888 (`fmt = 0`) returns exactly the same image. -/
theorem c1_roundtrip (w h : Nat) (p : List Nat) (hw : 0 < w) (hh : 0 < h)
    (hw32 : w < 4294967296) (hh32 : h < 4294967296)
    (hp : p.length = w * h * 4) :
    ∃ stream, write_cim ⟨w, h, p⟩ = some stream ∧
      read_cim stream 0 = Except.ok ⟨w, h, p⟩ := by
  refine ⟨packBE32 w ++ packBE32 h ++ packBE32 0 ++ p, ?_, ?_⟩
  · unfold write_cim
    exact if_pos ⟨hw32, hh32⟩
  · have hstream : packBE32 w ++ packBE32 h ++ packBE32 0 ++ p =
        w / 16777216 % 256 :: w / 65536 % 256 :: w / 256 % 256 :: w % 256 ::
        h / 16777216 % 256 :: h / 65536 % 256 :: h / 256 % 256 :: h % 256 ::
        0 :: 0 :: 0 :: 0 :: p := rfl
    rw [hstream]
    unfold read_cim
    rw [decodeStages_cons]
    have hw' : w / 16777216 % 256 * 16777216 + w / 65536 % 256 * 65536 +
        w / 256 % 256 * 256 + w % 256 = w := by omega
    have hh' : h / 16777216 % 256 * 16777216 + h / 65536 % 256 * 65536 +
        h / 256 % 256 * 256 + h % 256 = h := by omega
    rw [hw', hh']
    unfold repairHeightPixels
    rw [if_neg (by simp [bpp_map, hp])]
    rfl

/-- C1 witness: the round trip at a concrete 1×1 image. -/
theorem c1_roundtrip_witness :
    ∃ stream, write_cim ⟨1, 1, [1, 2, 3, 4]⟩ = some stream ∧
      read_cim stream 0 = Except.ok ⟨1, 1, [1, 2, 3, 4]⟩ :=
  c1_roundtrip 1 1 [1, 2, 3, 4] (by decide) (by decide) (by decide)
    (by decide) (by decide)

/-- C3: the claim says a parsed width of 0 must fail with an
`InvalidDimensions` error kind. The code has no such guard: with
`width = 0` the repair branch is skipped (`expected_len = 0` is never
greater than the payload length, so no division happens) and decode
silently succeeds, handing a zero-width image with the untouched payload
to the external image library. This theorem evaluates the decode path at
such an input and shows it succeeds rather than failing. -/
theorem c3_zero_width_decode_succeeds :
    read_cim [0, 0, 0, 0, 0, 0, 0, 1, 0, 0, 0, 0, 9, 9, 9, 9] 0 =
      Except.ok ⟨0, 1, [9, 9, 9, 9]⟩ := rfl

/-- C4 counterexample: the payload-length invariant
`len(payload) = width * height * bpp` at the moment unpacking is
attempted fails when the original payload is longer than expected,
because the code only repairs payloads that are too short. Header
`width = 1`, `height = 1`, format Grayscale8 (`bpp = 1`) with a 2-byte
payload reaches unpacking with payload length 2 ≠ 1. -/
theorem c4_payload_invariant_cex :
    ¬ (∀ (data : List Nat) (fmt w h2 : Nat) (px : List Nat),
        decodeStages data fmt = some (w, h2, px) →
        px.length = w * h2 * bpp_map fmt) := by
  intro hall
  exact absurd
    (hall [0, 0, 0, 1, 0, 0, 0, 1, 0, 0, 0, 0, 1, 2] 3 1 1 [1, 2] rfl)
    (by decide)

/-- C4 (amended): whenever the original payload is at most
`width * height * bpp` bytes, the payload at the moment unpacking is
attempted has length exactly `width * height * bpp` for the (possibly
repaired) height; a payload longer than expected passes through
unchanged and is excluded. -/
theorem c4_payload_invariant (data : List Nat) (fmt w h2 : Nat)
    (px : List Nat)
    (hds : decodeStages data fmt = some (w, h2, px))
    (hle : (data.drop 12).length ≤
      beU32 data 0 * beU32 data 4 * bpp_map fmt) :
    px.length = w * h2 * bpp_map fmt := by
  by_cases h12 : data.length < 12
  · have hnone : decodeStages data fmt = none := by
      unfold decodeStages
      rw [if_pos h12]
    rw [hnone] at hds
    exact absurd hds (by simp)
  · rw [decodeStages_eq data fmt h12] at hds
    unfold repairHeightPixels at hds
    by_cases hlt : (data.drop 12).length <
        beU32 data 0 * beU32 data 4 * bpp_map fmt
    · rw [if_pos hlt] at hds
      simp only [Option.some.injEq, Prod.mk.injEq] at hds
      obtain ⟨hw, hh2, hpx⟩ := hds
      subst hw hh2 hpx
      have hle2 : beU32 data 0 *
          ((data.drop 12).length / (beU32 data 0 * bpp_map fmt)) *
            bpp_map fmt ≤ (data.drop 12).length := by
        have h1 : beU32 data 0 *
            ((data.drop 12).length / (beU32 data 0 * bpp_map fmt)) *
              bpp_map fmt =
            (data.drop 12).length / (beU32 data 0 * bpp_map fmt) *
              (beU32 data 0 * bpp_map fmt) := by ring
        rw [h1]
        exact Nat.div_mul_le_self _ _
      rw [List.length_take, Nat.min_eq_left hle2]
    · rw [if_neg hlt] at hds
      simp only [Option.some.injEq, Prod.mk.injEq] at hds
      obtain ⟨hw, hh2, hpx⟩ := hds
      subst hw hh2 hpx
      omega

/-- C4 witness: an exact-length RGB888 payload reaches unpacking with
length `1 * 1 * 3`. -/
theorem c4_payload_invariant_witness :
    decodeStages [0, 0, 0, 1, 0, 0, 0, 1, 0, 0, 0, 0, 1, 2, 3] 1 =
      some (1, 1, [1, 2, 3]) ∧
    ([1, 2, 3] : List Nat).length = 1 * 1 * bpp_map 1 :=
  ⟨rfl, c4_payload_invariant
    [0, 0, 0, 1, 0, 0, 0, 1, 0, 0, 0, 0, 1, 2, 3] 1 1 1 [1, 2, 3]
    rfl (by decide)⟩

/-- C5: the claim says an input whose length is not a multiple of `bpp`
must fail with a typed `MalformedPixelData` error and with no other,
untyped error. The code does neither: the RGB565 and RGB888 converters
run past the end of the byte string and raise an untyped `IndexError`
(modelled `none`, surfaced by the generic exception handler as
`imageError`), while the RGBA8888 path checks nothing and passes a
non-multiple-of-4 payload through silently. -/
theorem c5_malformed_input_untyped :
    convert_rgb565_to_rgba [255] = none ∧
    convert_rgb888_to_rgba [7] = none ∧
    unpack 2 [255] = Except.error DecodeError.imageError ∧
    unpack 0 [1, 2] = Except.ok [1, 2] :=
  ⟨rfl, rfl, rfl, rfl⟩

/-- C2: Repair rule. For every decode whose parsed width is positive,
whose selector is one of the four variants, and whose payload is shorter
than `width * height * bpp`, the height is recomputed as
`payload_length // (width * bpp)`, the payload is truncated to exactly
`width * new_height * bpp` bytes, and the decode succeeds. -/
theorem c2_repair_rule (data : List Nat) (fmt : Nat)
    (h12 : 12 ≤ data.length) (_hw : 0 < beU32 data 0) (hfmt : fmt < 4)
    (hshort : (data.drop 12).length <
      beU32 data 0 * beU32 data 4 * bpp_map fmt) :
    decodeStages data fmt =
      some (beU32 data 0,
        (data.drop 12).length / (beU32 data 0 * bpp_map fmt),
        (data.drop 12).take
          (beU32 data 0 *
            ((data.drop 12).length / (beU32 data 0 * bpp_map fmt)) *
            bpp_map fmt)) ∧
    ((data.drop 12).take
        (beU32 data 0 *
          ((data.drop 12).length / (beU32 data 0 * bpp_map fmt)) *
          bpp_map fmt)).length =
      beU32 data 0 *
        ((data.drop 12).length / (beU32 data 0 * bpp_map fmt)) *
        bpp_map fmt ∧
    ∃ rgba, read_cim data fmt =
      Except.ok ⟨beU32 data 0,
        (data.drop 12).length / (beU32 data 0 * bpp_map fmt), rgba⟩ := by
  have hds := decodeStages_eq data fmt (by omega)
  have hrep : repairHeightPixels (beU32 data 0) (beU32 data 4)
      (bpp_map fmt) (data.drop 12) =
      ((data.drop 12).length / (beU32 data 0 * bpp_map fmt),
        (data.drop 12).take
          (beU32 data 0 *
            ((data.drop 12).length / (beU32 data 0 * bpp_map fmt)) *
            bpp_map fmt)) := by
    unfold repairHeightPixels
    rw [if_pos hshort]
  have htrunc : beU32 data 0 *
      ((data.drop 12).length / (beU32 data 0 * bpp_map fmt)) *
      bpp_map fmt ≤ (data.drop 12).length := by
    have h1 : beU32 data 0 *
        ((data.drop 12).length / (beU32 data 0 * bpp_map fmt)) *
        bpp_map fmt =
        (data.drop 12).length / (beU32 data 0 * bpp_map fmt) *
          (beU32 data 0 * bpp_map fmt) := by ring
    rw [h1]
    exact Nat.div_mul_le_self _ _
  have hlen : ((data.drop 12).take
      (beU32 data 0 *
        ((data.drop 12).length / (beU32 data 0 * bpp_map fmt)) *
        bpp_map fmt)).length =
      beU32 data 0 *
        ((data.drop 12).length / (beU32 data 0 * bpp_map fmt)) *
        bpp_map fmt := by
    rw [List.length_take, Nat.min_eq_left htrunc]
  have hdvd : ((data.drop 12).take
      (beU32 data 0 *
        ((data.drop 12).length / (beU32 data 0 * bpp_map fmt)) *
        bpp_map fmt)).length % bpp_map fmt = 0 := by
    rw [hlen]
    exact Nat.mul_mod_left _ _
  obtain ⟨rgba, hrgba⟩ := unpack_ok_of_dvd fmt _ hfmt hdvd
  refine ⟨by rw [hds, hrep], hlen, rgba, ?_⟩
  unfold read_cim
  rw [hds, hrep]
  simp only [hrgba]

set_option maxRecDepth 100000 in
/-- C2 witness: the spec's concrete instance — `width = 10`,
`height = 10`, RGB888 (`bpp = 3`), a 250-byte payload; decode succeeds
with repaired height `250 // 30 = 8`. -/
theorem c2_repair_rule_witness :
    ∃ rgba, read_cim
        ([0, 0, 0, 10, 0, 0, 0, 10, 0, 0, 0, 1] ++ List.replicate 250 7) 1 =
      Except.ok ⟨10, 8, rgba⟩ := by
  obtain ⟨h1, h2, rgba, h3⟩ := c2_repair_rule
    ([0, 0, 0, 10, 0, 0, 0, 10, 0, 0, 0, 1] ++ List.replicate 250 7) 1
    (by decide) (by decide) (by decide) (by decide)
  have e2 : (([0, 0, 0, 10, 0, 0, 0, 10, 0, 0, 0, 1] ++
      List.replicate 250 7).drop 12).length /
      (beU32 ([0, 0, 0, 10, 0, 0, 0, 10, 0, 0, 0, 1] ++
        List.replicate 250 7) 0 * bpp_map 1) = 8 := by decide
  have e1 : beU32 ([0, 0, 0, 10, 0, 0, 0, 10, 0, 0, 0, 1] ++
      List.replicate 250 7) 0 = 10 := by decide
  rw [e2, e1] at h3
  exact ⟨rgba, h3⟩

/-- C9 counterexample: with a parsed height of 0 and a nonempty payload
shorter than one row, the repair branch is not taken at all
(`expected_len = 0` is not greater than the payload length), so the
payload is not truncated and decode returns a height-0 image with
nonempty pixel data, contrary to the claim's "empty pixel data". -/
theorem c9_degenerate_repair_cex :
    read_cim [0, 0, 0, 10, 0, 0, 0, 0, 0, 0, 0, 0, 5, 5, 5] 3 =
      Except.ok ⟨10, 0, [5, 5, 5, 255, 5, 5, 5, 255, 5, 5, 5, 255]⟩ ∧
    ([5, 5, 5, 255, 5, 5, 5, 255, 5, 5, 5, 255] : List Nat) ≠ [] :=
  ⟨rfl, by decide⟩

/-- C9 (amended): for every decode with parsed width `w > 0`, parsed
height at least 1, a supported selector, and a payload shorter than one
full row (`w * bpp` bytes), the repair yields height 0 and an empty
payload, and decode succeeds with a height-0 image and empty pixel
data. The header height 0 case is excluded: there the repair branch is
skipped and the payload passes through untruncated. -/
theorem c9_degenerate_repair (data : List Nat) (fmt : Nat)
    (h12 : 12 ≤ data.length) (_hw : 0 < beU32 data 0)
    (hh : 0 < beU32 data 4) (hfmt : fmt < 4)
    (hrow : (data.drop 12).length < beU32 data 0 * bpp_map fmt) :
    read_cim data fmt = Except.ok ⟨beU32 data 0, 0, []⟩ := by
  have hlt : (data.drop 12).length <
      beU32 data 0 * beU32 data 4 * bpp_map fmt := by
    have h2 : beU32 data 0 ≤ beU32 data 0 * beU32 data 4 :=
      Nat.le_mul_of_pos_right _ hh
    have h3 : beU32 data 0 * bpp_map fmt ≤
        beU32 data 0 * beU32 data 4 * bpp_map fmt :=
      Nat.mul_le_mul h2 (Nat.le_refl _)
    omega
  have hdiv : (data.drop 12).length / (beU32 data 0 * bpp_map fmt) = 0 :=
    Nat.div_eq_of_lt hrow
  have hds := decodeStages_eq data fmt (by omega)
  have hrep : repairHeightPixels (beU32 data 0) (beU32 data 4)
      (bpp_map fmt) (data.drop 12) = (0, []) := by
    unfold repairHeightPixels
    rw [if_pos hlt, hdiv]
    simp
  have hunpack : unpack fmt [] = Except.ok [] := by
    interval_cases fmt <;> rfl
  unfold read_cim
  rw [hds, hrep]
  simp [hunpack]

/-- C9 witness: `width = 10`, header height 1, Grayscale8, a 3-byte
payload (less than the 10-byte row): decode returns a height-0 image
with empty pixels. -/
theorem c9_degenerate_repair_witness :
    read_cim [0, 0, 0, 10, 0, 0, 0, 1, 0, 0, 0, 0, 5, 5, 5] 3 =
      Except.ok ⟨10, 0, []⟩ := by
  have h := c9_degenerate_repair
    [0, 0, 0, 10, 0, 0, 0, 1, 0, 0, 0, 0, 5, 5, 5] 3
    (by decide) (by decide) (by decide) (by decide) (by decide)
  have e : beU32 [0, 0, 0, 10, 0, 0, 0, 1, 0, 0, 0, 0, 5, 5, 5] 0 = 10 := by
    decide
  rw [e] at h
  exact h

/-- C10: width is never modified by decode. Whenever decode succeeds,
the width of the returned canonical image is exactly the width field
parsed from the header; the repair step touches only height and
payload. -/
theorem c10_width_preserved (data : List Nat) (fmt : Nat)
    (img : CanonicalImage)
    (h : read_cim data fmt = Except.ok img) : img.width = beU32 data 0 := by
  unfold read_cim at h
  by_cases h12 : data.length < 12
  · have hnone : decodeStages data fmt = none := by
      unfold decodeStages
      rw [if_pos h12]
    rw [hnone] at h
    exact absurd h (by simp)
  · rcases hds2 : decodeStages data fmt with _ | ⟨w, h2, px⟩
    · rw [hds2] at h
      exact absurd h (by simp)
    · have hws : (some (w, h2, px) : Option (Nat × Nat × List Nat)) =
          some (beU32 data 0,
            repairHeightPixels (beU32 data 0) (beU32 data 4) (bpp_map fmt)
              (data.drop 12)) :=
        hds2.symm.trans (decodeStages_eq data fmt h12)
      have hweq : w = beU32 data 0 := by
        simp only [Option.some.injEq, Prod.mk.injEq] at hws
        exact hws.1
      rw [hds2] at h
      cases hu : unpack fmt px with
      | error e =>
        simp only [hu] at h
        exact absurd h (by simp)
      | ok rgba =>
        simp only [hu, Except.ok.injEq] at h
        rw [← h]
        exact hweq

/-- C10 witness: a concrete successful decode whose returned width
equals the parsed width field. -/
theorem c10_width_preserved_witness :
    read_cim [0, 0, 0, 1, 0, 0, 0, 1, 0, 0, 0, 0, 3, 4, 5, 6] 0 =
      Except.ok ⟨1, 1, [3, 4, 5, 6]⟩ ∧
    (⟨1, 1, [3, 4, 5, 6]⟩ : CanonicalImage).width =
      beU32 [0, 0, 0, 1, 0, 0, 0, 1, 0, 0, 0, 0, 3, 4, 5, 6] 0 :=
  ⟨rfl, c10_width_preserved
    [0, 0, 0, 1, 0, 0, 0, 1, 0, 0, 0, 0, 3, 4, 5, 6] 0
    ⟨1, 1, [3, 4, 5, 6]⟩ rfl⟩

/-- C6: RGB565 expansion. For every 16-bit big-endian word, given as its
two bytes `hi` and `lo` (word value `256 * hi + lo`), the converter
splits the word into the 5-bit R field (bits 15-11), the 6-bit G field
(bits 10-5) and the 5-bit B field (bits 4-0), expands each by the
bit-replication rule (R and B: shift 3 OR shift-right 2; G: shift 2 OR
shift-right 4), and appends alpha 255. -/
theorem c6_rgb565_expansion (hi lo : Nat) (_hhi : hi < 256)
    (hlo : lo < 256) :
    convert_rgb565_to_rgba [hi, lo] =
      some [replicate5to8 (((256 * hi + lo) >>> 11) &&& 31),
        replicate6to8 (((256 * hi + lo) >>> 5) &&& 63),
        replicate5to8 ((256 * hi + lo) &&& 31), 255] := by
  have hval := shiftLeft8_lor hi lo hlo
  simp [convert_rgb565_to_rgba, replicate5to8, replicate6to8, hval]

/-- C6 witness: the three concrete words from the spec — `0xFFFF` gives
white, `0x0000` gives black, `0xF800` gives pure red. -/
theorem c6_rgb565_expansion_witness :
    convert_rgb565_to_rgba [255, 255] = some [255, 255, 255, 255] ∧
    convert_rgb565_to_rgba [0, 0] = some [0, 0, 0, 255] ∧
    convert_rgb565_to_rgba [248, 0] = some [255, 0, 0, 255] :=
  ⟨(c6_rgb565_expansion 255 255 (by decide) (by decide)).trans (by decide),
    (c6_rgb565_expansion 0 0 (by decide) (by decide)).trans (by decide),
    (c6_rgb565_expansion 248 0 (by decide) (by decide)).trans (by decide)⟩

/-- C7: Format-tag noninterference. Two decompressed streams that agree
except in the `format_tag` field (bytes 8-11 of the header) decode
identically for every caller-selected format: the stored tag affects
neither success, dimensions, nor pixel bytes. -/
theorem c7_format_tag_noninterference (pre tag1 tag2 rest : List Nat)
    (fmt : Nat) (hpre : pre.length = 8) (h1 : tag1.length = 4)
    (h2 : tag2.length = 4) :
    read_cim (pre ++ tag1 ++ rest) fmt =
      read_cim (pre ++ tag2 ++ rest) fmt := by
  have hds : decodeStages (pre ++ tag1 ++ rest) fmt =
      decodeStages (pre ++ tag2 ++ rest) fmt := by
    rw [decodeStages_eq _ fmt
        (by simp only [List.length_append, hpre, h1]; omega),
      decodeStages_eq _ fmt
        (by simp only [List.length_append, hpre, h2]; omega)]
    rw [beU32_append_tag pre tag1 rest hpre 0 (by omega),
      beU32_append_tag pre tag2 rest hpre 0 (by omega),
      beU32_append_tag pre tag1 rest hpre 4 (by omega),
      beU32_append_tag pre tag2 rest hpre 4 (by omega)]
    rw [List.drop_left'
        (show (pre ++ tag1).length = 12 by simp [hpre, h1]),
      List.drop_left'
        (show (pre ++ tag2).length = 12 by simp [hpre, h2])]
  unfold read_cim
  rw [hds]

/-- C7 witness: two concrete streams differing only in the tag bytes
decode to the same result. -/
theorem c7_format_tag_noninterference_witness :
    ([0, 0, 0, 1, 0, 0, 0, 1] : List Nat).length = 8 ∧
    ([0, 0, 0, 0] : List Nat).length = 4 ∧
    ([9, 9, 9, 9] : List Nat).length = 4 ∧
    read_cim ([0, 0, 0, 1, 0, 0, 0, 1] ++ [0, 0, 0, 0] ++ [1, 2, 3, 4]) 0 =
      read_cim ([0, 0, 0, 1, 0, 0, 0, 1] ++ [9, 9, 9, 9] ++ [1, 2, 3, 4]) 0 :=
  ⟨rfl, rfl, rfl,
    c7_format_tag_noninterference [0, 0, 0, 1, 0, 0, 0, 1] [0, 0, 0, 0]
      [9, 9, 9, 9] [1, 2, 3, 4] 0 rfl rfl rfl⟩

/-- C8: Alpha invariant. For every source format other than RGBA8888
(RGB888, RGB565, Grayscale8) and every input the unpacker accepts, each
produced pixel has alpha 255: every output byte at an index congruent to
3 mod 4 equals 255. -/
theorem c8_alpha_invariant (fmt : Nat) (data out : List Nat)
    (hf : fmt = 1 ∨ fmt = 2 ∨ fmt = 3)
    (hu : unpack fmt data = Except.ok out)
    (k : Nat) (hk : 4 * k + 3 < out.length) :
    out.getD (4 * k + 3) 0 = 255 := by
  rcases hf with rfl | rfl | rfl
  · simp only [unpack] at hu
    norm_num at hu
    cases hc : convert_rgb888_to_rgba data with
    | none =>
      rw [hc] at hu
      exact absurd hu (by simp)
    | some o =>
      rw [hc] at hu
      simp only [Except.ok.injEq] at hu
      subst hu
      exact rgb888_alpha data o hc k hk
  · simp only [unpack] at hu
    norm_num at hu
    cases hc : convert_rgb565_to_rgba data with
    | none =>
      rw [hc] at hu
      exact absurd hu (by simp)
    | some o =>
      rw [hc] at hu
      simp only [Except.ok.injEq] at hu
      subst hu
      exact rgb565_alpha data o hc k hk
  · simp only [unpack] at hu
    norm_num at hu
    subst hu
    exact gray_alpha data k hk

/-- C8 witness: the grayscale byte 7 unpacks to `(7, 7, 7, 255)`, whose
alpha byte is 255. -/
theorem c8_alpha_invariant_witness :
    unpack 3 [7] = Except.ok [7, 7, 7, 255] ∧
    ([7, 7, 7, 255] : List Nat).getD 3 0 = 255 :=
  ⟨rfl, c8_alpha_invariant 3 [7] [7, 7, 7, 255]
    (Or.inr (Or.inr rfl)) rfl 0 (by decide)⟩

end Cimtoolkit
